import Mathlib

/-!
Streaming core of hops-metadata-dal-impl-ndb.

Shallow embedding of `GenericListenerThread.cpp` (the event-polling scheduler)
and `GenericMsgHandlingThread.cpp` (the message-dispatch loop), and the
properties of both that the specification states.

Conventions of the embedding:

* C++ objects reached through pointers (listeners, dataflow controllers,
  messages) are identified by natural numbers; a `NULL` pointer or a cell that
  was never written is `none`.
* An array allocated with `new T[n]` is a function from cell numbers to
  contents; the cells `k < n` are the allocation, a write to a cell `k ≥ n` is a
  write outside of it.
* `unsigned int` arithmetic is arithmetic modulo `2^32`.
* The collaborators (listeners, queues, controllers, the message handler, the
  other thread) are a record of functions over an arbitrary "world" type `W`;
  every call threads the world, so a call may return anything and anything may
  happen concurrently between two calls.
* Every call on a collaborator is appended to a trace.
-/

namespace Streaming

/-! ## Machine integers -/

/-- Number of values of an `unsigned int`. -/
def UINT_MOD : Nat := 4294967296

/-- The constant `ULONG_MAX` of `<limits.h>` (LP64). -/
def ULONG_MAX : Nat := 18446744073709551615

/-- Addition of two `unsigned int` values. -/
def uadd (a b : Nat) : Nat := (a + b) % UINT_MOD

/-! ## GenericListenerThread: construction, registration, lifecycle -/

/-- A listener object: its identity and what `getTimeout()` returns. -/
structure Listener where
  id : Nat
  timeout : Nat
deriving DecidableEq, Repr

/-- The call `listener->getTimeout()`. -/
def Listener.getTimeout (l : Listener) : Nat := l.timeout

/-- The fields of a `GenericListenerThread` object. -/
structure GenericListenerThread where
  started : Bool
  running : Bool
  nListeners : Nat
  listeners : Nat → Option Listener
  syncObj : Nat → Option Nat
  pollTimeout : Nat
  blockingListenerId : Nat

namespace GenericListenerThread

/-- The constructor `GenericListenerThread(nListeners)`. -/
def new (nListeners : Nat) : GenericListenerThread :=
  { started := false, running := true,
    nListeners := nListeners,
    listeners := fun _ => none,
    syncObj := fun _ => none,
    pollTimeout := ULONG_MAX,
    blockingListenerId := 0 }

/-- The method `registerListener(n, listener, dfc)`; `none` is a failed
assertion. -/
def registerListener (t : GenericListenerThread) (n : Nat) (listener : Listener)
    (dfc : Nat) : Option GenericListenerThread :=
  if t.started then none
  else if ¬ (n ≤ t.nListeners) then none
  else
    let t1 := { t with listeners := Function.update t.listeners n (some listener) }
    let t2 := { t1 with syncObj := Function.update t1.syncObj n (some dfc) }
    let listenerTimeout := listener.getTimeout
    if listenerTimeout < t2.pollTimeout then
      some { t2 with pollTimeout := listenerTimeout }
    else some t2

/-- The method `start()`; `created` tells whether `pthread_create` succeeded.
The result is the new object state and the returned boolean; `none` is a failed
assertion. -/
def start (t : GenericListenerThread) (created : Bool) :
    Option (GenericListenerThread × Bool) :=
  if t.started then none
  else if ¬ created then some (t, false)
  else some ({ t with started := true }, true)

/-- The method `stop()`; `joined` tells whether `pthread_join` succeeded. -/
def stop (t : GenericListenerThread) (joined : Bool) :
    Option (GenericListenerThread × Bool) :=
  if ¬ t.started then none
  else
    let t1 := { t with running := false }
    if ¬ joined then some (t1, false) else some (t1, true)

/-- The precondition `assert(!running)` of the destructor. -/
def destructorPre (t : GenericListenerThread) : Bool := !t.running

/-- A sequence of `registerListener` calls, stopping at a failed assertion. -/
def registerAll (t : GenericListenerThread) :
    List (Nat × Listener × Nat) → Option GenericListenerThread
  | [] => some t
  | (n, l, d) :: rest =>
    match t.registerListener n l d with
    | none => none
    | some t1 => registerAll t1 rest

/-- The listeners held by the cells of the registration table. -/
def held (t : GenericListenerThread) : List Listener :=
  (List.range t.nListeners).filterMap t.listeners

/-- Minimum of `getTimeout()` over the listeners the registration table holds,
`ULONG_MAX` for an empty table. -/
def tableMin (t : GenericListenerThread) : Nat :=
  (t.held.map Listener.getTimeout).foldl min ULONG_MAX

end GenericListenerThread

/-- The public methods of a `GenericListenerThread`, with the outcome of the
thread primitive each one uses. -/
inductive ListenerOp where
  | start (created : Bool)
  | stop (joined : Bool)
  | registerListener (n : Nat) (listener : Listener) (dfc : Nat)
deriving DecidableEq, Repr

/-- One method call on a `GenericListenerThread`. -/
def GenericListenerThread.apply (t : GenericListenerThread) :
    ListenerOp → Option GenericListenerThread
  | .start c => (t.start c).map Prod.fst
  | .stop j => (t.stop j).map Prod.fst
  | .registerListener n l d => t.registerListener n l d

/-- A sequence of method calls, every assertion respected (`none` otherwise). -/
def GenericListenerThread.applyAll (t : GenericListenerThread) :
    List ListenerOp → Option GenericListenerThread
  | [] => some t
  | op :: rest =>
    match t.apply op with
    | none => none
    | some t1 => applyAll t1 rest

/-! ## GenericListenerThread: the scheduler's thread -/


/-- The collaborators of the scheduler's thread. A call through a pointer hands
the pointer to the collaborator. -/
structure SchedEnv (W : Type) where
  handleEventsNonBlocking : Listener → W → Nat × W
  handleEventsTimeout : Option Listener → W → Nat × W
  checkConsumer : Option Nat → W → Bool × W
  checkConsumerSync : Option Nat → W → W
  running : W → Bool

/-- The calls the scheduler's thread makes. `i` is the index of the array cell
the call goes through; `handleEventsTimeout` records the `pendingWakeup` array
at the time of the call. -/
inductive SEvent where
  | handleEventsNonBlocking (i : Nat) (gl : Listener) (nProcessed : Nat)
  | checkConsumer (i : Nat) (dfc : Option Nat) (pending : Bool)
  | checkConsumerSync (i : Nat) (dfc : Option Nat)
  | handleEventsTimeout (gl : Option Listener) (pendingWakeup : List Bool) (np : Nat)
deriving DecidableEq, Repr

/-- The number of events that the `handleEventsNonBlocking` calls of a trace
handled, as a natural number. -/
def processedIn : List SEvent → Nat
  | [] => 0
  | SEvent.handleEventsNonBlocking _ _ np :: rest => np + processedIn rest
  | _ :: rest => processedIn rest

/-- The values that the `handleEventsNonBlocking` calls through cell `i`
returned, in call order. -/
def pollsAt (i : Nat) : List SEvent → List Nat
  | [] => []
  | SEvent.handleEventsNonBlocking j _ np :: rest =>
    if j = i then np :: pollsAt i rest else pollsAt i rest
  | _ :: rest => pollsAt i rest

/-- The variables of `eventProcessingRound`: the two arrays it writes, the
world, the calls made and `totalProcessed`. -/
structure Round (W : Type) where
  listeners : Nat → Option Listener
  pendingWakeup : Nat → Bool
  world : W
  events : List SEvent
  totalProcessed : Nat

/-- The body of the `for` loop of `eventProcessingRound` at index `i`. -/
def roundBody {W : Type} (env : SchedEnv W) (syncObj : Nat → Option Nat) (r : Round W)
    (i : Nat) : Round W :=
  match r.listeners i with
  | some gl =>
    let res := env.handleEventsNonBlocking gl r.world
    let nProcessed := res.1 % UINT_MOD
    let ev := r.events ++ [SEvent.handleEventsNonBlocking i gl nProcessed]
    if nProcessed > 0 then
      let c := env.checkConsumer (syncObj i) res.2
      { r with totalProcessed := uadd r.totalProcessed nProcessed,
               pendingWakeup := Function.update r.pendingWakeup i c.1,
               world := c.2,
               events := ev ++ [SEvent.checkConsumer i (syncObj i) c.1] }
    else
      let ls := Function.update r.listeners i none
      if r.pendingWakeup i then
        let c := env.checkConsumer (syncObj i) res.2
        { r with listeners := ls,
                 pendingWakeup := Function.update r.pendingWakeup i c.1,
                 world := c.2,
                 events := ev ++ [SEvent.checkConsumer i (syncObj i) c.1] }
      else { r with listeners := ls, world := res.2, events := ev }
  | none =>
    if r.pendingWakeup i then
      let c := env.checkConsumer (syncObj i) r.world
      { r with pendingWakeup := Function.update r.pendingWakeup i c.1,
               world := c.2,
               events := r.events ++ [SEvent.checkConsumer i (syncObj i) c.1] }
    else r

/-- The function `eventProcessingRound(nListeners, listeners, syncObj,
pendingWakeup)`; the result's `totalProcessed` is the returned value. -/
def eventProcessingRound {W : Type} (env : SchedEnv W) (nListeners : Nat)
    (listeners : Nat → Option Listener) (syncObj : Nat → Option Nat)
    (pendingWakeup : Nat → Bool) (world : W) : Round W :=
  (List.range nListeners).foldl (roundBody env syncObj)
    { listeners := listeners, pendingWakeup := pendingWakeup, world := world,
      events := [], totalProcessed := 0 }

/-- The memory the scheduler's thread works on: the thread object `glt` and
the local variables of `runproc` that live across the outer loop. -/
structure Sched (W : Type) where
  glt : GenericListenerThread
  runningListeners : Nat → Option Listener
  pendingWakeup : Nat → Bool
  world : W

/-- The assignment loop `runningListeners[i] = listeners[i]` for `i < nListeners`. -/
def resetRunning {W : Type} (s : Sched W) : Sched W :=
  let copy := fun (rl : Nat → Option Listener) (i : Nat) => Function.update rl i (s.glt.listeners i)
  { s with runningListeners := (List.range s.glt.nListeners).foldl copy s.runningListeners }

/-- The initialisation of `runproc` before its outer loop; `fresh` and `dirty`
are what the two arrays hold when `new` returns them. -/
def Sched.init {W : Type} (glt : GenericListenerThread) (fresh : Nat → Option Listener)
    (dirty : Nat → Bool) (world : W) : Sched W :=
  let body := fun (s : Sched W) (i : Nat) =>
    { s with runningListeners := Function.update s.runningListeners i (glt.listeners i),
             pendingWakeup := Function.update s.pendingWakeup i false }
  (List.range glt.nListeners).foldl body
    { glt := glt, runningListeners := fresh, pendingWakeup := dirty, world := world }

/-- One call `eventProcessingRound(nListeners, runningListeners, syncObj,
pendingWakeup)` made by `runproc`: the new memory, the calls, the returned
total. -/
def sweep {W : Type} (env : SchedEnv W) (s : Sched W) : Sched W × List SEvent × Nat :=
  let r := eventProcessingRound env s.glt.nListeners s.runningListeners s.glt.syncObj
    s.pendingWakeup s.world
  ({ s with runningListeners := r.listeners, pendingWakeup := r.pendingWakeup,
            world := r.world },
    r.events, r.totalProcessed)

/-- The `do ... while (processedEvents > 0)` loop of `runproc`, at most `fuel`
sweeps. The result is the memory, the calls, `accProcessedEvents`, and
whether the loop ended (`false`: out of fuel). -/
def drainLoop {W : Type} (env : SchedEnv W) :
    Nat → Sched W → Nat → Sched W × List SEvent × Nat × Bool
  | 0, s, acc => (s, [], acc, false)
  | fuel + 1, s, acc =>
    let r := sweep env s
    let processedEvents := r.2.2
    let acc1 := uadd acc processedEvents
    if processedEvents > 0 then
      let rest := drainLoop env fuel r.1 acc1
      (rest.1, r.2.1 ++ rest.2.1, rest.2.2.1, rest.2.2.2)
    else (r.1, r.2.1, acc1, true)

/-- How the drain and rescan phases of one outer-loop iteration end. -/
inductive Phase where
  | outOfWork
  | rescanFoundWork
  | outOfFuel
deriving DecidableEq, Repr

/-- The drain loop and the rescan of one outer-loop iteration. -/
def drainRescan {W : Type} (env : SchedEnv W) (fuel : Nat) (s : Sched W) :
    Sched W × List SEvent × Phase :=
  let d := drainLoop env fuel s 0
  if ¬ d.2.2.2 then (d.1, d.2.1, Phase.outOfFuel)
  else if d.2.2.1 > 0 then
    let r := sweep env (resetRunning d.1)
    if r.2.2 > 0 then (r.1, d.2.1 ++ r.2.1, Phase.rescanFoundWork)
    else (r.1, d.2.1 ++ r.2.1, Phase.outOfWork)
  else (d.1, d.2.1, Phase.outOfWork)

/-- The body of the quiesce loop of `runproc` at index `i`. -/
def quiesceBody {W : Type} (env : SchedEnv W) (a : Sched W × List SEvent) (i : Nat) :
    Sched W × List SEvent :=
  if a.1.pendingWakeup i then
    ({ a.1 with world := env.checkConsumerSync (a.1.glt.syncObj i) a.1.world,
                pendingWakeup := Function.update a.1.pendingWakeup i false },
      a.2 ++ [SEvent.checkConsumerSync i (a.1.glt.syncObj i)])
  else a

/-- The quiesce loop of `runproc`. -/
def quiesce {W : Type} (env : SchedEnv W) (s : Sched W) : Sched W × List SEvent :=
  (List.range s.glt.nListeners).foldl (quiesceBody env) (s, [])

/-- The blocking call of `runproc` and the reset of `runningListeners` after it. -/
def blockingWait {W : Type} (env : SchedEnv W) (s : Sched W) : Sched W × List SEvent :=
  let res := env.handleEventsTimeout (s.glt.listeners s.glt.blockingListenerId) s.world
  let np := res.1 % UINT_MOD
  let ev := [SEvent.handleEventsTimeout (s.glt.listeners s.glt.blockingListenerId)
    ((List.range s.glt.nListeners).map s.pendingWakeup) np]
  let s1 := resetRunning { s with world := res.2 }
  if np = 0 then
    ({ s1 with runningListeners :=
        Function.update s1.runningListeners s.glt.blockingListenerId none }, ev)
  else (s1, ev)

/-- One iteration of the outer loop of `runproc`. -/
def iteration {W : Type} (env : SchedEnv W) (fuel : Nat) (s : Sched W) :
    Sched W × List SEvent × Phase :=
  let d := drainRescan env fuel s
  match d.2.2 with
  | Phase.outOfWork =>
    let q := quiesce env d.1
    let b := blockingWait env q.1
    (b.1, d.2.1 ++ q.2 ++ b.2, Phase.outOfWork)
  | p => (d.1, d.2.1, p)

/-- A `MsgType` object: the one the constructor creates for the slot of queue
`i`, or a message that came out of a queue. -/
inductive MsgObj where
  | sentinel (i : Nat)
  | queued (msg : Nat)
deriving DecidableEq, Repr

/-- The fields of a `GenericMsgHandlingThread` object that the loop and the
lifecycle use (the queue heads, the handler and the controller are
collaborators). -/
structure GenericMsgHandlingThread where
  nQs : Nat
  lastMsg : Nat → MsgObj
  started : Bool
  running : Bool

namespace GenericMsgHandlingThread

/-- The constructor `GenericMsgHandlingThread(nQueues, msgHandler)`. -/
def new (nQueues : Nat) : GenericMsgHandlingThread :=
  { nQs := nQueues,
    lastMsg := fun i => MsgObj.sentinel i,
    started := false, running := true }

/-- The method `getQueueHead(n)`: the index of the queue head returned; `none`
is a failed assertion. -/
def getQueueHead (t : GenericMsgHandlingThread) (n : Nat) : Option Nat :=
  if t.started then none
  else if ¬ (n < t.nQs) then none
  else some n

/-- The method `start()`. -/
def start (t : GenericMsgHandlingThread) (created : Bool) :
    Option (GenericMsgHandlingThread × Bool) :=
  if t.started then none
  else if ¬ created then some (t, false)
  else some ({ t with started := true }, true)

/-- The method `stop()`. -/
def stop (t : GenericMsgHandlingThread) (joined : Bool) :
    Option (GenericMsgHandlingThread × Bool) :=
  if ¬ t.started then none
  else
    let t1 := { t with running := false }
    if ¬ joined then some (t1, false) else some (t1, true)

/-- The precondition `assert(!running)` of the destructor. -/
def destructorPre (t : GenericMsgHandlingThread) : Bool := !t.running

/-- The method `getDataflowController()`: `none` is a failed assertion. -/
def getDataflowController (t : GenericMsgHandlingThread) : Option Unit :=
  if t.started then none else some ()

end GenericMsgHandlingThread

/-- The public methods of a `GenericMsgHandlingThread`. -/
inductive MsgOp where
  | start (created : Bool)
  | stop (joined : Bool)
  | getQueueHead (n : Nat)
  | getDataflowController
deriving DecidableEq, Repr

namespace GenericMsgHandlingThread

/-- One method call on a `GenericMsgHandlingThread`. -/
def apply (t : GenericMsgHandlingThread) : MsgOp → Option GenericMsgHandlingThread
  | .start c => (t.start c).map Prod.fst
  | .stop j => (t.stop j).map Prod.fst
  | .getQueueHead n => (t.getQueueHead n).map (fun _ => t)
  | .getDataflowController => t.getDataflowController.map (fun _ => t)

/-- A sequence of method calls, every assertion respected (`none` otherwise). -/
def applyAll (t : GenericMsgHandlingThread) : List MsgOp → Option GenericMsgHandlingThread
  | [] => some t
  | op :: rest =>
    match t.apply op with
    | none => none
    | some t1 => applyAll t1 rest

end GenericMsgHandlingThread

/-- A listener with a timeout of 50. -/
def listenerA : Listener := { id := 1, timeout := 50 }

/-- A listener with a timeout of 5. -/
def listenerB : Listener := { id := 2, timeout := 5 }

/-- A listener with a timeout of 10. -/
def listenerC : Listener := { id := 3, timeout := 10 }

/-- A scheduler of capacity 1 after `registerListener(0, listenerA, 7)`,
`start()` and `stop()`. -/
def stoppedScheduler : GenericListenerThread :=
  { started := true, running := false, nListeners := 1,
    listeners := Function.update (fun _ => none) 0 (some listenerA),
    syncObj := Function.update (fun _ => none) 0 (some 7),
    pollTimeout := 50, blockingListenerId := 0 }

/-- A scheduler of capacity 2 after `registerListener(0, listenerA, 7)` and
`registerListener(1, listenerB, 8)`. -/
def twoListeners : GenericListenerThread :=
  { started := false, running := true, nListeners := 2,
    listeners := Function.update (Function.update (fun _ => none) 0 (some listenerA)) 1
      (some listenerB),
    syncObj := Function.update (Function.update (fun _ => none) 0 (some 7)) 1 (some 8),
    pollTimeout := 5, blockingListenerId := 0 }

/-- Collaborators whose every non-blocking poll handles `2^31` events. -/
def twinBurstEnv : SchedEnv Unit where
  handleEventsNonBlocking := fun _ w => (2147483648, w)
  handleEventsTimeout := fun _ w => (0, w)
  checkConsumer := fun _ w => (false, w)
  checkConsumerSync := fun _ w => w
  running := fun _ => true

/-- Collaborators where the world counts the non-blocking polls made so far:
`listenerA` handles `2^31` events in each of the polls number 0 to 2 of the
run, every other poll handles nothing. -/
def burstEnv : SchedEnv Nat where
  handleEventsNonBlocking := fun gl w =>
    (if gl.id = listenerA.id ∧ w < 3 then 2147483648 else 0, w + 1)
  handleEventsTimeout := fun _ w => (0, w)
  checkConsumer := fun _ w => (false, w)
  checkConsumerSync := fun _ w => w
  running := fun _ => true

/-- A dispatch loop of 2 queues after `start()` and `stop()`. -/
def stoppedDispatcher : GenericMsgHandlingThread :=
  { nQs := 2, lastMsg := fun i => MsgObj.sentinel i, started := true, running := false }

/-! ## Lifecycle of the two thread objects -/

theorem listener_apply_flags (t t1 : GenericListenerThread) (op : ListenerOp)
    (h : t.apply op = some t1) :
    (t.running = false → t1.running = false) ∧
    (t.started = true → t1.started = true) ∧
    (op ≠ ListenerOp.start true → t.started = false → t.running = true →
      t1.started = false ∧ t1.running = true) ∧
    ((t.running = false → t.started = true) → t1.running = false → t1.started = true) := by
  cases op with
  | start c =>
    simp only [GenericListenerThread.apply, GenericListenerThread.start] at h
    cases hs : t.started <;> cases c <;> simp [hs] at h <;> subst h <;> simp_all
  | stop j =>
    simp only [GenericListenerThread.apply, GenericListenerThread.stop] at h
    cases hs : t.started <;> cases j <;> simp [hs] at h <;> subst h <;> simp_all
  | registerListener n l d =>
    simp only [GenericListenerThread.apply, GenericListenerThread.registerListener] at h
    cases hs : t.started <;> simp [hs] at h
    obtain ⟨_, h⟩ := h
    split at h <;> simp at h <;> subst h <;> simp_all

theorem dispatcher_apply_flags (t t1 : GenericMsgHandlingThread) (op : MsgOp)
    (h : t.apply op = some t1) :
    (t.running = false → t1.running = false) ∧
    (t.started = true → t1.started = true) ∧
    (op ≠ MsgOp.start true → t.started = false → t.running = true →
      t1.started = false ∧ t1.running = true) ∧
    ((t.running = false → t.started = true) → t1.running = false → t1.started = true) := by
  cases op with
  | start c =>
    simp only [GenericMsgHandlingThread.apply, GenericMsgHandlingThread.start] at h
    cases hs : t.started <;> cases c <;> simp [hs] at h <;> subst h <;> simp_all
  | stop j =>
    simp only [GenericMsgHandlingThread.apply, GenericMsgHandlingThread.stop] at h
    cases hs : t.started <;> cases j <;> simp [hs] at h <;> subst h <;> simp_all
  | getQueueHead n =>
    simp only [GenericMsgHandlingThread.apply, GenericMsgHandlingThread.getQueueHead] at h
    cases hs : t.started <;> simp [hs] at h
    obtain ⟨_, h⟩ := h
    subst h; simp_all
  | getDataflowController =>
    simp only [GenericMsgHandlingThread.apply,
      GenericMsgHandlingThread.getDataflowController] at h
    cases hs : t.started <;> simp [hs] at h
    subst h; simp_all

theorem listener_applyAll_flags (ops : List ListenerOp) :
    ∀ (t t1 : GenericListenerThread), t.applyAll ops = some t1 →
    (t.running = false → t1.running = false) ∧
    ((∀ op ∈ ops, op ≠ ListenerOp.start true) → t.started = false → t.running = true →
      t1.started = false ∧ t1.running = true) ∧
    ((t.running = false → t.started = true) → t1.running = false → t1.started = true) := by
  induction ops with
  | nil =>
    intro t t1 h
    simp only [GenericListenerThread.applyAll, Option.some.injEq] at h
    subst h
    exact ⟨fun hr => hr, fun _ hs hr => ⟨hs, hr⟩, fun hi => hi⟩
  | cons op rest ih =>
    intro t t1 h
    simp only [GenericListenerThread.applyAll] at h
    cases hop : t.apply op with
    | none => simp [hop] at h
    | some t2 =>
      simp only [hop] at h
      have h1 := listener_apply_flags t t2 op hop
      have h2 := ih t2 t1 h
      refine ⟨fun hr => h2.1 (h1.1 hr), ?_, fun hi => h2.2.2 (h1.2.2.2 hi)⟩
      intro hall hs hr
      have h3 := h1.2.2.1 (hall op (List.mem_cons_self _ _)) hs hr
      exact h2.2.1 (fun o ho => hall o (List.mem_cons_of_mem _ ho)) h3.1 h3.2

theorem dispatcher_applyAll_flags (ops : List MsgOp) :
    ∀ (t t1 : GenericMsgHandlingThread), t.applyAll ops = some t1 →
    (t.running = false → t1.running = false) ∧
    ((∀ op ∈ ops, op ≠ MsgOp.start true) → t.started = false → t.running = true →
      t1.started = false ∧ t1.running = true) ∧
    ((t.running = false → t.started = true) → t1.running = false → t1.started = true) := by
  induction ops with
  | nil =>
    intro t t1 h
    simp only [GenericMsgHandlingThread.applyAll, Option.some.injEq] at h
    subst h
    exact ⟨fun hr => hr, fun _ hs hr => ⟨hs, hr⟩, fun hi => hi⟩
  | cons op rest ih =>
    intro t t1 h
    simp only [GenericMsgHandlingThread.applyAll] at h
    cases hop : t.apply op with
    | none => simp [hop] at h
    | some t2 =>
      simp only [hop] at h
      have h1 := dispatcher_apply_flags t t2 op hop
      have h2 := ih t2 t1 h
      refine ⟨fun hr => h2.1 (h1.1 hr), ?_, fun hi => h2.2.2 (h1.2.2.2 hi)⟩
      intro hall hs hr
      have h3 := h1.2.2.1 (hall op (List.mem_cons_self _ _)) hs hr
      exact h2.2.1 (fun o ho => hall o (List.mem_cons_of_mem _ ho)) h3.1 h3.2

/-- C10: in every state that construction followed by `start()`/`stop()` (and
the other public methods) reaches with the assertions respected, for both
thread classes: `running == false` implies `started == true`; once `running` is
false every further sequence of calls leaves it false; and an object on which
no `start()` succeeded (never started, or thread creation failed) does not
satisfy the destructor's `assert(!running)`. -/
theorem running_flag_lifecycle (nListeners nQueues : Nat)
    (ops : List ListenerOp) (mops : List MsgOp)
    (t : GenericListenerThread) (m : GenericMsgHandlingThread)
    (ht : (GenericListenerThread.new nListeners).applyAll ops = some t)
    (hm : (GenericMsgHandlingThread.new nQueues).applyAll mops = some m) :
    ((t.running = false → t.started = true) ∧
      (∀ more t1, t.running = false → t.applyAll more = some t1 → t1.running = false) ∧
      ((∀ op ∈ ops, op ≠ ListenerOp.start true) → t.destructorPre = false)) ∧
    ((m.running = false → m.started = true) ∧
      (∀ more m1, m.running = false → m.applyAll more = some m1 → m1.running = false) ∧
      ((∀ op ∈ mops, op ≠ MsgOp.start true) → m.destructorPre = false)) := by
  have h1 := listener_applyAll_flags ops _ t ht
  have h2 := dispatcher_applyAll_flags mops _ m hm
  refine ⟨⟨?_, ?_, ?_⟩, ⟨?_, ?_, ?_⟩⟩
  · exact h1.2.2 (by simp [GenericListenerThread.new])
  · intro more t1 hr hmore
    exact (listener_applyAll_flags more t t1 hmore).1 hr
  · intro hall
    have := h1.2.1 hall (by simp [GenericListenerThread.new]) (by simp [GenericListenerThread.new])
    simp [GenericListenerThread.destructorPre, this.2]
  · exact h2.2.2 (by simp [GenericMsgHandlingThread.new])
  · intro more m1 hr hmore
    exact (dispatcher_applyAll_flags more m m1 hmore).1 hr
  · intro hall
    have := h2.2.1 hall (by simp [GenericMsgHandlingThread.new]) (by simp [GenericMsgHandlingThread.new])
    simp [GenericMsgHandlingThread.destructorPre, this.2]

/-- The lifecycle invariant on a scheduler taken through a registration, a
failed start, a start and a stop, and on a dispatch loop taken through
`getQueueHead`, a start and a stop whose join fails. -/
theorem running_flag_lifecycle_witness :
    (GenericListenerThread.new 1).applyAll
        [ListenerOp.registerListener 0 listenerA 7, ListenerOp.start false,
          ListenerOp.start true, ListenerOp.stop true] = some stoppedScheduler ∧
    (GenericMsgHandlingThread.new 2).applyAll
        [MsgOp.getQueueHead 1, MsgOp.start true, MsgOp.stop false] = some stoppedDispatcher ∧
    (stoppedScheduler.running = false → stoppedScheduler.started = true) ∧
    (stoppedDispatcher.running = false → stoppedDispatcher.started = true) :=
  have h := running_flag_lifecycle 1 2
    [ListenerOp.registerListener 0 listenerA 7, ListenerOp.start false,
      ListenerOp.start true, ListenerOp.stop true]
    [MsgOp.getQueueHead 1, MsgOp.start true, MsgOp.stop false]
    stoppedScheduler stoppedDispatcher rfl rfl
  ⟨rfl, rfl, h.1.1, h.2.1⟩

/-! ## Registration -/

/-- C4: `registerListener(1, listenerA, 7)` on a scheduler of capacity 1 passes
both assertions and writes cell 1 of `listeners` and of `syncObj`, one past the
last cell of either array; `registerListener(2, listenerA, 7)` fails the
assertion, and so does the sibling `getQueueHead(1)` on a dispatch loop of
1 queue. -/
theorem registerListener_writes_past_end :
    (((GenericListenerThread.new 1).registerListener 1 listenerA 7).map
        (fun t => (t.nListeners, t.listeners 1, t.syncObj 1, t.listeners 0)))
      = some (1, some listenerA, some 7, none) ∧
    ((GenericListenerThread.new 1).registerListener 2 listenerA 7).isNone = true ∧
    (GenericMsgHandlingThread.new 1).getQueueHead 1 = none := by
  refine ⟨?_, ?_, ?_⟩ <;> rfl

/-- C3 fails as stated: after `registerListener(0, listenerB, 7)` (timeout 5)
and then `registerListener(0, listenerC, 7)` (timeout 10) on a fresh scheduler
of capacity 1, the table holds only `listenerC`, the minimum over the table is
10, and `pollTimeout` is 5. -/
theorem pollTimeout_not_table_minimum :
    ((GenericListenerThread.new 1).registerAll [(0, listenerB, 7), (0, listenerC, 7)]).map
      (fun t => (t.held, t.tableMin, t.pollTimeout)) = some ([listenerC], 10, 5) := by
  rfl

theorem foldl_min_le_init (l : List Nat) : ∀ M : Nat, l.foldl min M ≤ M := by
  induction l with
  | nil => intro M; simp
  | cons a rest ih =>
    intro M
    simp only [List.foldl_cons]
    exact le_trans (ih _) (Nat.min_le_left _ _)

theorem foldl_min_le_mem (l : List Nat) : ∀ (M x : Nat), x ∈ l → l.foldl min M ≤ x := by
  induction l with
  | nil => intro M x hx; simp at hx
  | cons a rest ih =>
    intro M x hx
    simp only [List.foldl_cons]
    rcases List.mem_cons.mp hx with h | h
    · subst h
      exact le_trans (foldl_min_le_init rest _) (Nat.min_le_right _ _)
    · exact ih _ x h

theorem le_foldl_min (l : List Nat) :
    ∀ (M x : Nat), x ≤ M → (∀ t ∈ l, x ≤ t) → x ≤ l.foldl min M := by
  induction l with
  | nil => intro M x hM _; simpa using hM
  | cons a rest ih =>
    intro M x hM hall
    simp only [List.foldl_cons]
    apply ih
    · exact Nat.le_min.mpr ⟨hM, hall a (List.mem_cons_self _ _)⟩
    · intro t ht
      exact hall t (List.mem_cons_of_mem _ ht)

theorem registerListener_some (t t1 : GenericListenerThread)
    (n : Nat) (l : Listener) (d : Nat) (h : t.registerListener n l d = some t1) :
    t.started = false ∧ n ≤ t.nListeners ∧ t1.started = false ∧
    t1.nListeners = t.nListeners ∧
    t1.listeners = Function.update t.listeners n (some l) ∧
    t1.syncObj = Function.update t.syncObj n (some d) ∧
    t1.pollTimeout = min t.pollTimeout l.getTimeout := by
  simp only [GenericListenerThread.registerListener] at h
  cases hs : t.started <;> simp [hs] at h
  obtain ⟨hn, h⟩ := h
  split at h <;> simp at h <;> subst h <;> simp_all
  omega

theorem registerAll_spec (calls : List (Nat × Listener × Nat)) :
    ∀ (t t1 : GenericListenerThread), t.registerAll calls = some t1 →
    t1.nListeners = t.nListeners ∧
    t1.pollTimeout = (calls.map (fun c => c.2.1.getTimeout)).foldl min t.pollTimeout ∧
    (∀ k, k ∉ calls.map (fun c => c.1) → t1.listeners k = t.listeners k) ∧
    ((calls.map (fun c => c.1)).Nodup → ∀ c ∈ calls, t1.listeners c.1 = some c.2.1) ∧
    (∀ c ∈ calls, c.1 ≤ t.nListeners) := by
  induction calls with
  | nil =>
    intro t t1 h
    simp only [GenericListenerThread.registerAll, Option.some.injEq] at h
    subst h
    simp
  | cons c rest ih =>
    intro t t1 h
    obtain ⟨n, l, d⟩ := c
    simp only [GenericListenerThread.registerAll] at h
    cases hr : t.registerListener n l d with
    | none => simp [hr] at h
    | some t2 =>
      simp only [hr] at h
      obtain ⟨_, hn, _, hN, hL, _, hP⟩ := registerListener_some t t2 n l d hr
      obtain ⟨iN, iP, iK, iD, iB⟩ := ih t2 t1 h
      refine ⟨iN.trans hN, ?_, ?_, ?_, ?_⟩
      · simp only [List.map_cons, List.foldl_cons]
        rw [iP, hP]
      · intro k hk
        simp only [List.map_cons, List.mem_cons, not_or] at hk
        rw [iK k hk.2, hL, Function.update_noteq hk.1]
      · intro hnd c hc
        simp only [List.map_cons, List.nodup_cons] at hnd
        rcases List.mem_cons.mp hc with h1 | h1
        · subst h1
          rw [iK _ hnd.1, hL]
          simp
        · exact iD hnd.2 c h1
      · intro c hc
        rcases List.mem_cons.mp hc with h1 | h1
        · subst h1; exact hn
        · have := iB c h1
          omega

/-- C3, amended: after every sequence of `registerListener` calls with indices
inside the table (`n < nListeners`) on a freshly constructed scheduler,
`pollTimeout` equals the minimum of `getTimeout()` over all listeners passed to
those calls, a listener that a later call replaced at its index included, and
`ULONG_MAX` when nothing was registered; when no index is registered twice
this is the minimum over the listeners that the registration table holds. -/
theorem pollTimeout_min_over_calls (nListeners : Nat) (calls : List (Nat × Listener × Nat))
    (t : GenericListenerThread)
    (h : (GenericListenerThread.new nListeners).registerAll calls = some t)
    (hin : ∀ c ∈ calls, c.1 < nListeners) :
    t.pollTimeout = (calls.map (fun c => c.2.1.getTimeout)).foldl min ULONG_MAX ∧
    (calls = [] → t.pollTimeout = ULONG_MAX) ∧
    ((calls.map (fun c => c.1)).Nodup → t.pollTimeout = t.tableMin) := by
  obtain ⟨hN, hP, hK, hD, _⟩ := registerAll_spec calls _ t h
  have hP1 : t.pollTimeout = (calls.map (fun c => c.2.1.getTimeout)).foldl min ULONG_MAX := by
    simpa [GenericListenerThread.new] using hP
  refine ⟨hP1, ?_, ?_⟩
  · intro he
    rw [hP1, he]
    rfl
  · intro hnd
    have hN1 : t.nListeners = nListeners := by simpa [GenericListenerThread.new] using hN
    rw [hP1]
    unfold GenericListenerThread.tableMin
    apply Nat.le_antisymm
    · apply le_foldl_min
      · exact foldl_min_le_init _ _
      · intro x hx
        obtain ⟨l, hl, rfl⟩ := List.mem_map.mp hx
        unfold GenericListenerThread.held at hl
        obtain ⟨k, hk, hkl⟩ := List.mem_filterMap.mp hl
        by_cases hmem : k ∈ calls.map (fun c => c.1)
        · obtain ⟨c, hc, rfl⟩ := List.mem_map.mp hmem
          have := hD hnd c hc
          rw [this] at hkl
          simp only [Option.some.injEq] at hkl
          subst hkl
          exact foldl_min_le_mem _ _ _ (List.mem_map.mpr ⟨c, hc, rfl⟩)
        · have := hK k hmem
          rw [this] at hkl
          simp [GenericListenerThread.new] at hkl
    · apply le_foldl_min
      · exact foldl_min_le_init _ _
      · intro x hx
        obtain ⟨c, hc, rfl⟩ := List.mem_map.mp hx
        apply foldl_min_le_mem
        apply List.mem_map.mpr
        refine ⟨c.2.1, ?_, rfl⟩
        unfold GenericListenerThread.held
        apply List.mem_filterMap.mpr
        refine ⟨c.1, ?_, hD hnd c hc⟩
        rw [hN1]
        exact List.mem_range.mpr (hin c hc)

/-- Two listeners with timeouts 50 and 5 registered at indices 0 and 1 of a
scheduler of capacity 2: `pollTimeout` is 5, the minimum over the table. -/
theorem pollTimeout_min_over_calls_witness :
    ((GenericListenerThread.new 2).registerAll [(0, listenerA, 7), (1, listenerB, 8)]
        = some twoListeners) ∧
    twoListeners.pollTimeout = 5 ∧ twoListeners.tableMin = 5 :=
  have h := pollTimeout_min_over_calls 2 [(0, listenerA, 7), (1, listenerB, 8)] twoListeners
    rfl (by decide)
  ⟨rfl, rfl, (h.2.2 (by decide)).symm.trans rfl⟩

/-! ## One sweep of the scheduler -/

/-- What one pass of the `for` body of `eventProcessingRound` does at index `j`. -/
theorem roundBody_spec {W : Type} (env : SchedEnv W) (syncObj : Nat → Option Nat)
    (r : Round W) (j : Nat) :
    (∀ i, i ≠ j → (roundBody env syncObj r j).listeners i = r.listeners i) ∧
    (∀ i, i ≠ j → (roundBody env syncObj r j).pendingWakeup i = r.pendingWakeup i) ∧
    ∃ d, (roundBody env syncObj r j).events = r.events ++ d ∧
      (∀ i l np, SEvent.handleEventsNonBlocking i l np ∈ d → i = j ∧ r.listeners j = some l) ∧
      (∀ l, (roundBody env syncObj r j).listeners j = some l ↔
        (r.listeners j = some l ∧ ∃ np, 0 < np ∧ SEvent.handleEventsNonBlocking j l np ∈ d)) ∧
      ((roundBody env syncObj r j).listeners j = none →
        (roundBody env syncObj r j).totalProcessed = r.totalProcessed) := by
  unfold roundBody
  cases hl : r.listeners j with
  | none =>
    dsimp only
    split_ifs with hp
    · refine ⟨fun i _ => rfl, fun i hi => Function.update_noteq hi _ _, _, rfl, ?_, ?_, ?_⟩
      · intro i l np h; simp at h
      · intro l; simp [hl]
      · intro _; rfl
    · refine ⟨fun i _ => rfl, fun i _ => rfl, [], by simp, ?_, ?_, ?_⟩
      · intro i l np h; simp at h
      · intro l; simp [hl]
      · intro _; rfl
  | some gl =>
    dsimp only
    split_ifs with hn hp
    · refine ⟨fun i _ => rfl, fun i hi => Function.update_noteq hi _ _, _,
        (List.append_assoc _ _ _), ?_, ?_, ?_⟩
      · intro i l np h
        simp at h
        exact ⟨h.1, by rw [h.2.1]⟩
      · intro l
        simp only [hl, Option.some.injEq]
        constructor
        · intro h
          subst h
          exact ⟨rfl, _, hn, by simp⟩
        · intro h; exact h.1
      · intro h; simp [hl] at h
    · refine ⟨fun i hi => Function.update_noteq hi _ _, fun i hi => Function.update_noteq hi _ _,
        _, (List.append_assoc _ _ _), ?_, ?_, ?_⟩
      · intro i l np h
        simp at h
        exact ⟨h.1, by rw [h.2.1]⟩
      · intro l
        simp only [Function.update_same]
        constructor
        · intro h; simp at h
        · rintro ⟨_, np, hpos, h⟩
          simp at h
          omega
      · intro _; rfl
    · refine ⟨fun i hi => Function.update_noteq hi _ _, fun i _ => rfl,
        _, rfl, ?_, ?_, ?_⟩
      · intro i l np h
        simp at h
        exact ⟨h.1, by rw [h.2.1]⟩
      · intro l
        simp only [Function.update_same]
        constructor
        · intro h; simp at h
        · rintro ⟨_, np, hpos, h⟩
          simp at h
          omega
      · intro _; rfl

theorem copy_fold_get (f : Nat → Option Listener) (is : List Nat) :
    ∀ (g : Nat → Option Listener) (i : Nat),
      (is.foldl (fun rl k => Function.update rl k (f k)) g) i = if i ∈ is then f i else g i := by
  induction is with
  | nil => intro g i; simp
  | cons j rest ih =>
    intro g i
    simp only [List.foldl_cons, ih, List.mem_cons]
    by_cases h1 : i ∈ rest
    · simp [h1]
    · by_cases h2 : i = j
      · subst h2; simp [h1]
      · simp [h1, h2, Function.update_noteq h2]

theorem resetRunning_get {W : Type} (s : Sched W) (i : Nat) (hi : i < s.glt.nListeners) :
    (resetRunning s).runningListeners i = s.glt.listeners i := by
  unfold resetRunning
  simp only
  rw [copy_fold_get]
  simp [hi]

/-- The loop invariant of `eventProcessingRound`, over any list of distinct
indices. -/
theorem round_fold_spec {W : Type} (env : SchedEnv W) (syncObj : Nat → Option Nat)
    (is : List Nat) : is.Nodup → ∀ r : Round W,
    (∀ i, i ∉ is → (is.foldl (roundBody env syncObj) r).listeners i = r.listeners i) ∧
    ∃ d, (is.foldl (roundBody env syncObj) r).events = r.events ++ d ∧
      (∀ i l np, SEvent.handleEventsNonBlocking i l np ∈ d → i ∈ is ∧ r.listeners i = some l) ∧
      (∀ i, i ∈ is → ∀ l, (is.foldl (roundBody env syncObj) r).listeners i = some l ↔
        (r.listeners i = some l ∧ ∃ np, 0 < np ∧ SEvent.handleEventsNonBlocking i l np ∈ d)) ∧
      ((∀ i, i ∈ is → (is.foldl (roundBody env syncObj) r).listeners i = none) →
        (is.foldl (roundBody env syncObj) r).totalProcessed = r.totalProcessed) := by
  induction is with
  | nil =>
    intro _ r
    refine ⟨fun i _ => rfl, [], by simp, ?_, ?_, ?_⟩
    · intro i l np h; simp at h
    · intro i h; simp at h
    · intro _; rfl
  | cons j rest ih =>
    intro hnd r
    have hj : j ∉ rest := (List.nodup_cons.mp hnd).1
    obtain ⟨s1, _, d1, e1, n1, p1, t1⟩ := roundBody_spec env syncObj r j
    obtain ⟨s2, d2, e2, n2, p2, t2⟩ := ih (List.nodup_cons.mp hnd).2 (roundBody env syncObj r j)
    simp only [List.foldl_cons]
    refine ⟨?_, d1 ++ d2, ?_, ?_, ?_, ?_⟩
    · intro i hi
      simp only [List.mem_cons, not_or] at hi
      rw [s2 i hi.2, s1 i hi.1]
    · rw [e2, e1, List.append_assoc]
    · intro i l np h
      rcases List.mem_append.mp h with h | h
      · obtain ⟨rfl, hl⟩ := n1 i l np h
        exact ⟨List.mem_cons_self _ _, hl⟩
      · obtain ⟨hi, hl⟩ := n2 i l np h
        have hne : i ≠ j := fun e => hj (e ▸ hi)
        exact ⟨List.mem_cons_of_mem _ hi, by rw [← s1 i hne]; exact hl⟩
    · intro i hi l
      rcases List.mem_cons.mp hi with rfl | hi
      · rw [s2 i hj, p1 l]
        constructor
        · rintro ⟨hl, np, hpos, h⟩
          exact ⟨hl, np, hpos, List.mem_append_left _ h⟩
        · rintro ⟨hl, np, hpos, h⟩
          refine ⟨hl, np, hpos, ?_⟩
          rcases List.mem_append.mp h with h | h
          · exact h
          · exact absurd (n2 i l np h).1 hj
      · have hne : i ≠ j := fun e => hj (e ▸ hi)
        rw [p2 i hi l, s1 i hne]
        constructor
        · rintro ⟨hl, np, hpos, h⟩
          exact ⟨hl, np, hpos, List.mem_append_right _ h⟩
        · rintro ⟨hl, np, hpos, h⟩
          refine ⟨hl, np, hpos, ?_⟩
          rcases List.mem_append.mp h with h | h
          · exact absurd (n1 i l np h).1 hne
          · exact h
    · intro hall
      rw [t2 (fun i hi => hall i (List.mem_cons_of_mem _ hi))]
      apply t1
      rw [← s2 j hj]
      exact hall j (List.mem_cons_self _ _)

/-! ## The calls of the drain and rescan phases -/

theorem drainLoop_glt {W : Type} (env : SchedEnv W) (fuel : Nat) :
    ∀ (s : Sched W) (acc : Nat), (drainLoop env fuel s acc).1.glt = s.glt := by
  induction fuel with
  | zero => intro s acc; rfl
  | succ k ih =>
    intro s acc
    simp only [drainLoop]
    split_ifs with h
    · rw [ih]; rfl
    · rfl

/-- C6: two listeners, listener 1 idle. Listener 0 handles `2^31` events in the
first sweep and `2^31` in the second, and nothing in the third: both sweeps
return `2^31`, `accProcessedEvents` wraps around to 0, and the outer-loop
iteration goes on to the blocking `handleEventsTimeout` call without a rescan,
listener 1 not having been polled since the first sweep. In the same way a
sweep in which both listeners handle `2^31` events returns 0, and the iteration
blocks after that one sweep. -/
theorem rescan_skipped_after_wraparound :
    ((drainLoop burstEnv 5 (Sched.init twoListeners (fun _ => none) (fun _ => false) 0) 0).2.2
        = (0, true) ∧
      (iteration burstEnv 5 (Sched.init twoListeners (fun _ => none) (fun _ => false) 0)).2 =
        ([SEvent.handleEventsNonBlocking 0 listenerA 2147483648,
            SEvent.checkConsumer 0 (some 7) false,
            SEvent.handleEventsNonBlocking 1 listenerB 0,
            SEvent.handleEventsNonBlocking 0 listenerA 2147483648,
            SEvent.checkConsumer 0 (some 7) false,
            SEvent.handleEventsNonBlocking 0 listenerA 0,
            SEvent.handleEventsTimeout (some listenerA) [false, false] 0], Phase.outOfWork)) ∧
    ((sweep twinBurstEnv (Sched.init twoListeners (fun _ => none) (fun _ => false) ())).2 =
        ([SEvent.handleEventsNonBlocking 0 listenerA 2147483648,
            SEvent.checkConsumer 0 (some 7) false,
            SEvent.handleEventsNonBlocking 1 listenerB 2147483648,
            SEvent.checkConsumer 1 (some 8) false], 0) ∧
      (iteration twinBurstEnv 5 (Sched.init twoListeners (fun _ => none) (fun _ => false) ())).2 =
        ([SEvent.handleEventsNonBlocking 0 listenerA 2147483648,
            SEvent.checkConsumer 0 (some 7) false,
            SEvent.handleEventsNonBlocking 1 listenerB 2147483648,
            SEvent.checkConsumer 1 (some 8) false,
            SEvent.handleEventsTimeout (some listenerA) [false, false] 0], Phase.outOfWork)) := by
  refine ⟨⟨?_, ?_⟩, ⟨?_, ?_⟩⟩ <;> rfl

/-! ## The rescan when no counter wraps around -/

theorem processedIn_append (a b : List SEvent) :
    processedIn (a ++ b) = processedIn a + processedIn b := by
  induction a with
  | nil => simp [processedIn]
  | cons e rest ih => cases e <;> simp [processedIn, ih, Nat.add_assoc]

theorem processedIn_pos (ev : List SEvent) (i : Nat) (l : Listener) (np : Nat) (hpos : 0 < np)
    (h : SEvent.handleEventsNonBlocking i l np ∈ ev) : 0 < processedIn ev := by
  induction ev with
  | nil => simp at h
  | cons e rest ih =>
    rcases List.mem_cons.mp h with h1 | h1
    · subst h1
      simp only [processedIn]
      omega
    · have := ih h1
      cases e <;> simp only [processedIn] <;> omega

theorem roundBody_total {W : Type} (env : SchedEnv W) (syncObj : Nat → Option Nat)
    (r : Round W) (j : Nat) (ht : r.totalProcessed < UINT_MOD) :
    ∃ d, (roundBody env syncObj r j).events = r.events ++ d ∧
      (roundBody env syncObj r j).totalProcessed = (r.totalProcessed + processedIn d) % UINT_MOD ∧
      (∀ l, r.listeners j = some l → ∃ np, SEvent.handleEventsNonBlocking j l np ∈ d) := by
  unfold roundBody
  cases hl : r.listeners j with
  | none =>
    dsimp only
    split_ifs with hp
    · exact ⟨_, rfl, by simp [processedIn, Nat.mod_eq_of_lt ht], by simp⟩
    · exact ⟨[], by simp, by simp [processedIn, Nat.mod_eq_of_lt ht], by simp⟩
  | some gl =>
    dsimp only
    split_ifs with hn hp
    · refine ⟨_, List.append_assoc _ _ _, ?_, ?_⟩
      · simp [processedIn, uadd]
      · intro l hl1
        simp only [Option.some.injEq] at hl1
        subst hl1
        exact ⟨(env.handleEventsNonBlocking gl r.world).1 % UINT_MOD, by simp⟩
    · refine ⟨_, List.append_assoc _ _ _, ?_, ?_⟩
      · have h0 : (env.handleEventsNonBlocking gl r.world).1 % UINT_MOD = 0 := by omega
        simp [processedIn, h0, Nat.mod_eq_of_lt ht]
      · intro l hl1
        simp only [Option.some.injEq] at hl1
        subst hl1
        exact ⟨(env.handleEventsNonBlocking gl r.world).1 % UINT_MOD, by simp⟩
    · refine ⟨_, rfl, ?_, ?_⟩
      · have h0 : (env.handleEventsNonBlocking gl r.world).1 % UINT_MOD = 0 := by omega
        simp [processedIn, h0, Nat.mod_eq_of_lt ht]
      · intro l hl1
        simp only [Option.some.injEq] at hl1
        subst hl1
        exact ⟨(env.handleEventsNonBlocking gl r.world).1 % UINT_MOD, by simp⟩

theorem round_fold_total {W : Type} (env : SchedEnv W) (syncObj : Nat → Option Nat)
    (is : List Nat) : is.Nodup → ∀ r : Round W, r.totalProcessed < UINT_MOD →
    ∃ d, (is.foldl (roundBody env syncObj) r).events = r.events ++ d ∧
      (is.foldl (roundBody env syncObj) r).totalProcessed =
        (r.totalProcessed + processedIn d) % UINT_MOD ∧
      (∀ i, i ∈ is → ∀ l, r.listeners i = some l →
        ∃ np, SEvent.handleEventsNonBlocking i l np ∈ d) := by
  induction is with
  | nil =>
    intro _ r ht
    exact ⟨[], by simp, by simp [processedIn, Nat.mod_eq_of_lt ht], by simp⟩
  | cons j rest ih =>
    intro hnd r ht
    have hj : j ∉ rest := (List.nodup_cons.mp hnd).1
    obtain ⟨d1, e1, t1, p1⟩ := roundBody_total env syncObj r j ht
    obtain ⟨s1, _, _⟩ := roundBody_spec env syncObj r j
    have ht1 : (roundBody env syncObj r j).totalProcessed < UINT_MOD := by
      rw [t1]
      exact Nat.mod_lt _ (by decide)
    obtain ⟨d2, e2, t2, p2⟩ := ih (List.nodup_cons.mp hnd).2 (roundBody env syncObj r j) ht1
    simp only [List.foldl_cons]
    refine ⟨d1 ++ d2, by rw [e2, e1, List.append_assoc], ?_, ?_⟩
    · rw [t2, t1, processedIn_append, Nat.mod_add_mod, Nat.add_assoc]
    · intro i hi l hl
      rcases List.mem_cons.mp hi with rfl | hi
      · obtain ⟨np, h⟩ := p1 l hl
        exact ⟨np, List.mem_append_left _ h⟩
      · have hne : i ≠ j := fun e => hj (e ▸ hi)
        obtain ⟨np, h⟩ := p2 i hi l (by rw [s1 i hne]; exact hl)
        exact ⟨np, List.mem_append_right _ h⟩

theorem sweep_total {W : Type} (env : SchedEnv W) (s : Sched W) :
    (sweep env s).2.2 = processedIn (sweep env s).2.1 % UINT_MOD ∧
    (∀ i l, i < s.glt.nListeners → s.runningListeners i = some l →
      ∃ np, SEvent.handleEventsNonBlocking i l np ∈ (sweep env s).2.1) := by
  obtain ⟨d, e, t, p⟩ := round_fold_total env s.glt.syncObj (List.range s.glt.nListeners)
    (List.nodup_range _)
    { listeners := s.runningListeners, pendingWakeup := s.pendingWakeup, world := s.world,
      events := [], totalProcessed := 0 } (show 0 < UINT_MOD by decide)
  simp only [List.nil_append, Nat.zero_add] at e t
  have hev : (sweep env s).2.1 = d := e
  refine ⟨by rw [hev]; exact t, ?_⟩
  intro i l hi hl
  rw [hev]
  exact p i (List.mem_range.mpr hi) l hl

theorem drainLoop_total {W : Type} (env : SchedEnv W) (fuel : Nat) :
    ∀ (s : Sched W) (acc : Nat),
    (drainLoop env fuel s acc).2.2.1 % UINT_MOD =
      (acc + processedIn (drainLoop env fuel s acc).2.1) % UINT_MOD := by
  induction fuel with
  | zero => intro s acc; simp [drainLoop, processedIn]
  | succ k ih =>
    intro s acc
    obtain ⟨t, _⟩ := sweep_total env s
    simp only [drainLoop]
    split_ifs with h
    · simp only
      rw [ih, processedIn_append, uadd, t]
      simp [Nat.add_assoc]
    · simp only
      rw [uadd, t]
      simp

theorem drainLoop_acc_lt {W : Type} (env : SchedEnv W) (fuel : Nat) :
    ∀ (s : Sched W) (acc : Nat), acc < UINT_MOD → (drainLoop env fuel s acc).2.2.1 < UINT_MOD := by
  induction fuel with
  | zero => intro s acc h; exact h
  | succ k ih =>
    intro s acc _
    have hu : uadd acc (sweep env s).2.2 < UINT_MOD := Nat.mod_lt _ (by decide)
    simp only [drainLoop]
    split_ifs with h
    · exact ih _ _ hu
    · exact hu

theorem processedIn_zero (ev : List SEvent) (h : processedIn ev = 0) :
    ∀ i l np, SEvent.handleEventsNonBlocking i l np ∈ ev → np = 0 := by
  intro i l np hmem
  by_contra hne
  have := processedIn_pos ev i l np (by omega) hmem
  omega

/-- The rescan of `runproc`, when no sum of event counts wraps around, neither
in the drain loop nor in the rescan sweep: if some sweep of the drain loop
handled an event, the drain and rescan phases end out of work only after the
working set has been reset to the whole registration table and one more sweep,
which polls every registered listener, has returned 0, every one of its polls
having returned 0. -/
theorem rescan_without_wraparound {W : Type} (env : SchedEnv W) (fuel : Nat) (s : Sched W)
    (hph : (drainRescan env fuel s).2.2 = Phase.outOfWork)
    (hnw : processedIn (drainLoop env fuel s 0).2.1 < UINT_MOD)
    (hnw2 : processedIn (sweep env (resetRunning (drainLoop env fuel s 0).1)).2.1 < UINT_MOD)
    (hwork : ∃ i l np, 0 < np ∧
      SEvent.handleEventsNonBlocking i l np ∈ (drainLoop env fuel s 0).2.1) :
    (∀ i, i < s.glt.nListeners →
      (resetRunning (drainLoop env fuel s 0).1).runningListeners i = s.glt.listeners i) ∧
    (drainRescan env fuel s).2.1 = (drainLoop env fuel s 0).2.1 ++
      (sweep env (resetRunning (drainLoop env fuel s 0).1)).2.1 ∧
    (sweep env (resetRunning (drainLoop env fuel s 0).1)).2.2 = 0 ∧
    (∀ i l np, SEvent.handleEventsNonBlocking i l np ∈
        (sweep env (resetRunning (drainLoop env fuel s 0).1)).2.1 → np = 0) ∧
    (∀ i l, i < s.glt.nListeners → s.glt.listeners i = some l →
      SEvent.handleEventsNonBlocking i l 0 ∈
        (sweep env (resetRunning (drainLoop env fuel s 0).1)).2.1) := by
  obtain ⟨i, l, np, hpos, hmem⟩ := hwork
  have hg := drainLoop_glt env fuel s 0
  have hsum := processedIn_pos _ i l np hpos hmem
  have hacc := drainLoop_acc_lt env fuel s 0 (by decide)
  have hacc1 : (drainLoop env fuel s 0).2.2.1 > 0 := by
    have := drainLoop_total env fuel s 0
    rw [Nat.mod_eq_of_lt hacc, Nat.zero_add, Nat.mod_eq_of_lt hnw] at this
    omega
  have hreset : ∀ i, i < s.glt.nListeners →
      (resetRunning (drainLoop env fuel s 0).1).runningListeners i = s.glt.listeners i := by
    intro i hi
    rw [resetRunning_get _ i (by rw [hg]; exact hi), hg]
  obtain ⟨st1, st2⟩ := sweep_total env (resetRunning (drainLoop env fuel s 0).1)
  simp only [drainRescan] at hph ⊢
  split_ifs at hph ⊢ with h1 h2
  · have hz : (sweep env (resetRunning (drainLoop env fuel s 0).1)).2.2 = 0 := by omega
    have hz2 : processedIn (sweep env (resetRunning (drainLoop env fuel s 0).1)).2.1 = 0 := by
      rw [hz, Nat.mod_eq_of_lt hnw2] at st1
      exact st1.symm
    have hall := processedIn_zero _ hz2
    refine ⟨hreset, rfl, hz, hall, ?_⟩
    intro i l hi hl
    obtain ⟨np, hm⟩ := st2 i l (by simpa [resetRunning, hg] using hi)
      (by rw [hreset i hi]; exact hl)
    have := hall i l np hm
    subst this
    exact hm

/-! ## Who is polled in one sweep -/

theorem pollsAt_append (i : Nat) (a b : List SEvent) :
    pollsAt i (a ++ b) = pollsAt i a ++ pollsAt i b := by
  induction a with
  | nil => rfl
  | cons e rest ih =>
    cases e with
    | handleEventsNonBlocking j l np =>
      by_cases h : j = i
      · simp [pollsAt, h, ih]
      · simp [pollsAt, h, ih]
    | _ => simpa [pollsAt] using ih

/-- The polls that one pass of the `for` body of `eventProcessingRound` makes at
index `j`: none when the cell is empty, one when it holds a listener. -/
theorem roundBody_polls {W : Type} (env : SchedEnv W) (syncObj : Nat → Option Nat)
    (r : Round W) (j : Nat) :
    ∃ d, (roundBody env syncObj r j).events = r.events ++ d ∧
      (∀ i, i ≠ j → pollsAt i d = []) ∧
      (r.listeners j = none → pollsAt j d = [] ∧ (roundBody env syncObj r j).listeners j = none) ∧
      (∀ l, r.listeners j = some l → ∃ np,
        pollsAt j d = [np] ∧ SEvent.handleEventsNonBlocking j l np ∈ d ∧
        (∃ w, np = (env.handleEventsNonBlocking l w).1 % UINT_MOD) ∧
        (0 < np → (roundBody env syncObj r j).listeners j = some l) ∧
        (np = 0 → (roundBody env syncObj r j).listeners j = none)) := by
  unfold roundBody
  cases hl : r.listeners j with
  | none =>
    dsimp only
    split_ifs with hp
    · refine ⟨_, rfl, ?_, ?_, ?_⟩
      · intro i _; simp [pollsAt]
      · intro _; exact ⟨by simp [pollsAt], hl⟩
      · intro l h; simp at h
    · refine ⟨[], by simp, ?_, ?_, ?_⟩
      · intro i _; simp [pollsAt]
      · intro _; exact ⟨by simp [pollsAt], hl⟩
      · intro l h; simp at h
  | some gl =>
    dsimp only
    split_ifs with hn hp
    · refine ⟨_, List.append_assoc _ _ _, ?_, ?_, ?_⟩
      · intro i hi; simp [pollsAt, Ne.symm hi]
      · intro h; simp at h
      · intro l h
        simp only [Option.some.injEq] at h
        subst h
        refine ⟨(env.handleEventsNonBlocking gl r.world).1 % UINT_MOD, by simp [pollsAt],
          by simp, ⟨r.world, rfl⟩, fun _ => hl, fun h0 => ?_⟩
        omega
    · refine ⟨_, List.append_assoc _ _ _, ?_, ?_, ?_⟩
      · intro i hi; simp [pollsAt, Ne.symm hi]
      · intro h; simp at h
      · intro l h
        simp only [Option.some.injEq] at h
        subst h
        refine ⟨(env.handleEventsNonBlocking gl r.world).1 % UINT_MOD, by simp [pollsAt],
          by simp, ⟨r.world, rfl⟩, fun h0 => absurd h0 hn, fun _ => by simp⟩
    · refine ⟨_, rfl, ?_, ?_, ?_⟩
      · intro i hi; simp [pollsAt, Ne.symm hi]
      · intro h; simp at h
      · intro l h
        simp only [Option.some.injEq] at h
        subst h
        refine ⟨(env.handleEventsNonBlocking gl r.world).1 % UINT_MOD, by simp [pollsAt],
          by simp, ⟨r.world, rfl⟩, fun h0 => absurd h0 hn, fun _ => by simp⟩

theorem round_fold_polls {W : Type} (env : SchedEnv W) (syncObj : Nat → Option Nat)
    (is : List Nat) : is.Nodup → ∀ r : Round W,
    ∃ d, (is.foldl (roundBody env syncObj) r).events = r.events ++ d ∧
      (∀ i, i ∉ is → pollsAt i d = []) ∧
      (∀ i, i ∈ is → r.listeners i = none →
        pollsAt i d = [] ∧ (is.foldl (roundBody env syncObj) r).listeners i = none) ∧
      (∀ i, i ∈ is → ∀ l, r.listeners i = some l → ∃ np,
        pollsAt i d = [np] ∧ SEvent.handleEventsNonBlocking i l np ∈ d ∧
        (∃ w, np = (env.handleEventsNonBlocking l w).1 % UINT_MOD) ∧
        (0 < np → (is.foldl (roundBody env syncObj) r).listeners i = some l) ∧
        (np = 0 → (is.foldl (roundBody env syncObj) r).listeners i = none)) := by
  induction is with
  | nil =>
    intro _ r
    exact ⟨[], by simp, fun i _ => rfl, fun i h => by simp at h, fun i h => by simp at h⟩
  | cons j rest ih =>
    intro hnd r
    have hj : j ∉ rest := (List.nodup_cons.mp hnd).1
    obtain ⟨d1, e1, o1, n1, p1⟩ := roundBody_polls env syncObj r j
    obtain ⟨s1, _, _⟩ := roundBody_spec env syncObj r j
    obtain ⟨d2, e2, o2, n2, p2⟩ := ih (List.nodup_cons.mp hnd).2 (roundBody env syncObj r j)
    obtain ⟨u2, _⟩ := round_fold_spec env syncObj rest (List.nodup_cons.mp hnd).2
      (roundBody env syncObj r j)
    simp only [List.foldl_cons]
    refine ⟨d1 ++ d2, by rw [e2, e1, List.append_assoc], ?_, ?_, ?_⟩
    · intro i hi
      simp only [List.mem_cons, not_or] at hi
      rw [pollsAt_append, o1 i hi.1, o2 i hi.2]
      rfl
    · intro i hi hn
      rcases List.mem_cons.mp hi with rfl | hi
      · obtain ⟨a, b⟩ := n1 hn
        rw [pollsAt_append, a, o2 i hj, u2 i hj]
        exact ⟨rfl, b⟩
      · have hne : i ≠ j := fun e => hj (e ▸ hi)
        obtain ⟨a, b⟩ := n2 i hi (by rw [s1 i hne]; exact hn)
        rw [pollsAt_append, o1 i hne, a]
        exact ⟨rfl, b⟩
    · intro i hi l hl
      rcases List.mem_cons.mp hi with rfl | hi
      · obtain ⟨np, a, b, c, f, g⟩ := p1 l hl
        refine ⟨np, ?_, List.mem_append_left _ b, c, ?_, ?_⟩
        · rw [pollsAt_append, a, o2 i hj]
          rfl
        · intro h; rw [u2 i hj]; exact f h
        · intro h; rw [u2 i hj]; exact g h
      · have hne : i ≠ j := fun e => hj (e ▸ hi)
        obtain ⟨np, a, b, c, f, g⟩ := p2 i hi l (by rw [s1 i hne]; exact hl)
        refine ⟨np, ?_, List.mem_append_right _ b, c, f, g⟩
        rw [pollsAt_append, o1 i hne, a]
        rfl

/-- C9: one sweep `eventProcessingRound(nListeners, runningListeners, syncObj,
pendingWakeup)` of `runproc`. Every listener present in the working set is
polled exactly once with `handleEventsNonBlocking`, the recorded count being
what the listener returned, and listeners absent from the working set are not
polled. Entry `i` of the working set is present after the sweep exactly when
it was present before and its poll returned more than 0; the sweep writes
nothing but `NULL` into the working set and nothing outside its `nListeners`
cells. The thread object, and with it the registration table
`glt->listeners`, is the same after the sweep, so that copying the table again
brings back every registered listener. The returned total is the sum of the
polled counts modulo `2^32`, and a non-zero returned total leaves an entry of
the working set present. -/
theorem sweep_trims_working_set {W : Type} (env : SchedEnv W) (s : Sched W) :
    (∀ i, i < s.glt.nListeners → ∀ l,
      (sweep env s).1.runningListeners i = some l ↔
        (s.runningListeners i = some l ∧
          ∃ np, 0 < np ∧ SEvent.handleEventsNonBlocking i l np ∈ (sweep env s).2.1)) ∧
    (∀ i l np, SEvent.handleEventsNonBlocking i l np ∈ (sweep env s).2.1 →
      i < s.glt.nListeners ∧ s.runningListeners i = some l) ∧
    ((sweep env s).1.glt = s.glt ∧
      (sweep env s).1.glt.listeners = s.glt.listeners ∧
      ∀ i, i < s.glt.nListeners →
        (resetRunning (sweep env s).1).runningListeners i = s.glt.listeners i) ∧
    ((sweep env s).2.2 ≠ 0 →
      ∃ i, i < s.glt.nListeners ∧ (sweep env s).1.runningListeners i ≠ none) ∧
    (∀ i l, i < s.glt.nListeners → s.runningListeners i = some l → ∃ np,
      pollsAt i (sweep env s).2.1 = [np] ∧
      SEvent.handleEventsNonBlocking i l np ∈ (sweep env s).2.1 ∧
      (∃ w, np = (env.handleEventsNonBlocking l w).1 % UINT_MOD) ∧
      ((sweep env s).1.runningListeners i = some l ↔ 0 < np) ∧
      (np = 0 → (sweep env s).1.runningListeners i = none)) ∧
    (∀ i, (s.runningListeners i = none ∨ ¬ i < s.glt.nListeners) →
      pollsAt i (sweep env s).2.1 = []) ∧
    (∀ i, (sweep env s).1.runningListeners i = s.runningListeners i ∨
      (i < s.glt.nListeners ∧ (sweep env s).1.runningListeners i = none)) ∧
    (sweep env s).2.2 = processedIn (sweep env s).2.1 % UINT_MOD := by
  obtain ⟨u, d, e, n, p, t⟩ := round_fold_spec env s.glt.syncObj (List.range s.glt.nListeners)
    (List.nodup_range _)
    { listeners := s.runningListeners, pendingWakeup := s.pendingWakeup, world := s.world,
      events := [], totalProcessed := 0 }
  obtain ⟨d1, e1, o1, n1, p1⟩ := round_fold_polls env s.glt.syncObj
    (List.range s.glt.nListeners) (List.nodup_range _)
    { listeners := s.runningListeners, pendingWakeup := s.pendingWakeup, world := s.world,
      events := [], totalProcessed := 0 }
  simp only [List.nil_append] at e e1
  have hev : (sweep env s).2.1 = d := e
  have hev1 : (sweep env s).2.1 = d1 := e1
  refine ⟨?_, ?_, ⟨rfl, rfl, ?_⟩, ?_, ?_, ?_, ?_, (sweep_total env s).1⟩
  · intro i hi l
    rw [hev]
    exact p i (List.mem_range.mpr hi) l
  · intro i l np h
    rw [hev] at h
    obtain ⟨h1, h2⟩ := n i l np h
    exact ⟨List.mem_range.mp h1, h2⟩
  · intro i hi
    exact resetRunning_get _ i hi
  · intro hne
    by_contra hcon
    push_neg at hcon
    apply hne
    exact t (fun i hi => hcon i (List.mem_range.mp hi))
  · intro i l hi hl
    obtain ⟨np, a, b, c, f, g⟩ := p1 i (List.mem_range.mpr hi) l hl
    rw [hev1]
    refine ⟨np, a, b, c, ⟨fun h => ?_, f⟩, g⟩
    by_contra h0
    have hz : np = 0 := by omega
    have hnone : (sweep env s).1.runningListeners i = none := g hz
    rw [hnone] at h
    simp at h
  · intro i hi
    rw [hev1]
    by_cases hlt : i < s.glt.nListeners
    · rcases hi with hi | hi
      · exact (n1 i (List.mem_range.mpr hlt) hi).1
      · exact absurd hlt hi
    · exact o1 i (by simpa using hlt)
  · intro i
    by_cases hlt : i < s.glt.nListeners
    · cases hc : (sweep env s).1.runningListeners i with
      | none => right; exact ⟨hlt, rfl⟩
      | some l =>
        left
        have := (p i (List.mem_range.mpr hlt) l).mp hc
        exact this.1.symm
    · left
      exact u i (by simpa using hlt)

/-! ## The idle handoff of the dispatch loop -/

end Streaming
